import Mathlib

/-!
Verification development for the Memory second-brain app: a shallow embedding
of its retrieval and ranking core (hybrid search, relation linking,
resurfacing selection, insight mining, AI-metadata defaulting), with theorems
checking the stated properties of each component.

Conventions of the embedding:
* JavaScript numbers are modelled as exact rationals (scores) and integers
  (millisecond timestamps); machine floating point is idealised.
* JavaScript `x || d` defaulting is modelled faithfully, including the fact
  that the number `0` is falsy.
* `Array.prototype.sort` (stable since ES2019) with comparator
  `(a, b) => b.score - a.score` is modelled as the stable
  `List.insertionSort` with the relation `a.score >= b.score`.
* The async AI provider calls are modelled by passing their results
  (query embedding, parsed analysis response) as explicit arguments.
-/

namespace MemoryApp

/-- The four memory kinds of the app (field `type` of `MemoryItem`). -/
inductive MemoryType where
  | link
  | note
  | image
  | pdf
deriving DecidableEq

/-- `AIMetadata` record from `types.ts`. `importance` is an optional number in
the source; `collection` and `relatedMemoryIds` are optional. -/
structure AIMetadata where
  summary : String
  topics : List String
  mood : List String
  colors : List String
  collection : Option String
  relatedMemoryIds : Option (List String)
  importance : Option ℚ
deriving DecidableEq

/-- `MemoryItem` record from `types.ts`. Timestamps are ms since epoch. -/
structure MemoryItem where
  id : String
  type : MemoryType
  content : String
  imageData : Option String
  aiMetadata : AIMetadata
  embedding : List ℚ
  createdAt : ℤ
  lastResurfaced : Option ℤ
  resurfaceCount : Option ℕ
deriving DecidableEq

/-- `SearchResult` from `types.ts`: a memory together with its score
(the source spreads the memory fields and adds `score`). -/
structure SearchResult where
  item : MemoryItem
  score : ℚ
deriving DecidableEq

/-- Insight kinds from `types.ts`. -/
inductive InsightType where
  | pattern
  | trend
  | connection
  | reminder
deriving DecidableEq

/-- `Insight` record from `types.ts`. -/
structure Insight where
  type : InsightType
  title : String
  description : String
  memoryIds : List String
  relevance : ℚ
deriving DecidableEq

/-- JavaScript `x || d` for an optional rational: `undefined` and `0` are
falsy, so they yield the default. -/
def jsOrQ (x : Option ℚ) (d : ℚ) : ℚ :=
  match x with
  | none => d
  | some v => if v = 0 then d else v

/-- JavaScript `x || d` for an optional integer timestamp: `undefined` and
`0` are falsy, so they yield the default. -/
def jsOrZ (x : Option ℤ) (d : ℤ) : ℤ :=
  match x with
  | none => d
  | some v => if v = 0 then d else v

/-- Lowercasing of a string, modelling `String.prototype.toLowerCase` on the
ASCII range used by the app. -/
def lowerStr (s : String) : String :=
  ⟨s.data.map Char.toLower⟩

/-- Check that `pat` occurs at the head of `text` (helper for substring
search). -/
def matchAt : List Char → List Char → Bool
  | [], _ => true
  | _ :: _, [] => false
  | p :: ps, c :: cs => p == c && matchAt ps cs

/-- Check that `pat` occurs somewhere in `text` (helper for substring
search). -/
def containsSub (pat : List Char) : List Char → Bool
  | [] => matchAt pat []
  | c :: cs => matchAt pat (c :: cs) || containsSub pat cs

/-- JavaScript `text.includes(pat)`: substring containment. -/
def strIncludes (text pat : String) : Bool :=
  containsSub pat.data text.data

/-- JavaScript `Array.prototype.join(" ")`. -/
def joinSpace (parts : List String) : String :=
  String.intercalate " " parts

/-- Drop leading whitespace from a character list. -/
def dropWS (l : List Char) : List Char :=
  l.dropWhile Char.isWhitespace

/-- JavaScript `String.prototype.trim`: strip whitespace from both ends. -/
def jsTrim (s : String) : String :=
  ⟨((dropWS s.data).reverse |> dropWS).reverse⟩

/-- `24 * 60 * 60 * 1000` ms, the `ONE_DAY` constant of the app. -/
def ONE_DAY_MS : ℤ := 86400000

/-- `7 * ONE_DAY` ms, the `ONE_WEEK` constant of the app. -/
def ONE_WEEK_MS : ℤ := 7 * ONE_DAY_MS

/-- `30 * ONE_DAY` ms, the `ONE_MONTH` constant of the app. -/
def ONE_MONTH_MS : ℤ := 30 * ONE_DAY_MS

/-! ### Hybrid search engine (`performSearch` in the app component)

The similarity primitive `cosineSimilarity` lives in `services/vector.ts`,
which is not part of the available sources; the search and linking functions
below therefore take the similarity function `sim` as an explicit parameter,
exactly where the source calls `cosineSimilarity`. -/

/-- Result of one search evaluation: `noFilter` models the source setting
`searchResults` to `null`, `plain` models the unscored short-query filter
result, `scored` models the scored hybrid-path result. -/
inductive SearchOutput where
  | noFilter
  | plain (results : List MemoryItem)
  | scored (results : List SearchResult)
deriving DecidableEq

/-- Short-query lexical match: content, summary, or some topic contains the
lowercased query as a substring (all lowercased). -/
def shortQueryMatch (lowerQ : String) (m : MemoryItem) : Bool :=
  strIncludes (lowerStr m.content) lowerQ ||
    strIncludes (lowerStr m.aiMetadata.summary) lowerQ ||
    m.aiMetadata.topics.any (fun t => strIncludes (lowerStr t) lowerQ)

/-- The lowercased blob `[content, summary, ...topics, ...mood].join(" ")`
used for the substring boost in the hybrid path. -/
def allMetadataText (m : MemoryItem) : String :=
  lowerStr (joinSpace ([m.content, m.aiMetadata.summary] ++
    m.aiMetadata.topics ++ m.aiMetadata.mood))

/-- Hybrid score of one memory: cosine similarity to the query embedding,
plus recency boost (up to `0.15`, linear decay over 60 days), plus `0.25`
if the metadata blob contains the query, plus `0.35` if some topic or mood
equals the query exactly (lowercased). -/
def hybridScore (sim : List ℚ → List ℚ → ℚ) (queryEmbedding : List ℚ)
    (lowerQ : String) (NOW : ℤ) (m : MemoryItem) : ℚ :=
  let base := sim queryEmbedding m.embedding
  let age : ℤ := NOW - m.createdAt
  let recencyScore : ℚ := max 0 (1 - (age : ℚ) / (60 * (ONE_DAY_MS : ℚ)))
  let s1 := base + recencyScore * (15 / 100)
  let s2 := if strIncludes (allMetadataText m) lowerQ then s1 + 25 / 100 else s1
  let exactTags := (m.aiMetadata.topics ++ m.aiMetadata.mood).map lowerStr
  if exactTags.any (fun t => t == lowerQ) then s2 + 35 / 100 else s2

/-- The scored result list of the hybrid path. The source only runs the
scoring map when the query embedding is non-empty (`queryEmbedding.length >
0`); otherwise `scoredResults` stays `[]`. -/
def hybridScored (sim : List ℚ → List ℚ → ℚ) (queryEmbedding : List ℚ)
    (lowerQ : String) (NOW : ℤ) (memories : List MemoryItem) :
    List SearchResult :=
  if 0 < queryEmbedding.length then
    memories.map (fun m => ⟨m, hybridScore sim queryEmbedding lowerQ NOW m⟩)
  else []

/-- The lowercased blob `[content, summary, ...topics].join(" ")` used by the
fallback keyword search (note: no mood, unlike `allMetadataText`). -/
def fallbackText (m : MemoryItem) : String :=
  lowerStr (joinSpace ([m.content, m.aiMetadata.summary] ++ m.aiMetadata.topics))

/-- Fallback results: memories whose fallback blob contains the query, each
carrying the artificial uniform score `0.5`. -/
def fallbackResults (lowerQ : String) (memories : List MemoryItem) :
    List SearchResult :=
  (memories.filter (fun m => strIncludes (fallbackText m) lowerQ)).map
    (fun m => ⟨m, 1 / 2⟩)

/-- `finalResults` of the hybrid path: scored results sorted descending by
score (stable, as JavaScript sort), then filtered to scores above `0.40`. -/
def finalResults (sim : List ℚ → List ℚ → ℚ) (queryEmbedding : List ℚ)
    (lowerQ : String) (NOW : ℤ) (memories : List MemoryItem) :
    List SearchResult :=
  ((hybridScored sim queryEmbedding lowerQ NOW memories).insertionSort
      (fun a b => a.score ≥ b.score)).filter (fun r => decide (r.score > 40 / 100))

/-- The search engine `performSearch`: `noFilter` for an empty or
whitespace-only query; the lexical filter for queries shorter than 3
characters; otherwise the hybrid path with the over-`0.40` ranked results, or
the uniform-score fallback when those are empty. `queryEmbedding` is the
result of the `getEmbedding` provider call issued by the hybrid path. -/
def performSearch (sim : List ℚ → List ℚ → ℚ) (queryEmbedding : List ℚ)
    (searchQuery : String) (memories : List MemoryItem) (NOW : ℤ) :
    SearchOutput :=
  if jsTrim searchQuery = "" then .noFilter
  else
    let lowerQ := lowerStr searchQuery
    if searchQuery.length < 3 then
      .plain (memories.filter (shortQueryMatch lowerQ))
    else
      let ranked := finalResults sim queryEmbedding lowerQ NOW memories
      if ranked.length = 0 then .scored (fallbackResults lowerQ memories)
      else .scored ranked

/-! ### Relation linker (`findRelatedMemories` in `services/gemini.ts`) -/

/-- Count of topics of `memory` whose lowercased value matches some topic of
`other` (case-insensitive overlap). -/
def topicOverlapCount (memory other : MemoryItem) : ℕ :=
  (memory.aiMetadata.topics.filter (fun t =>
    other.aiMetadata.topics.any (fun ot => lowerStr ot == lowerStr t))).length

/-- `finalScore` of the relation linker: similarity plus a `0.1` boost when
the case-insensitive topic overlap is positive. -/
def relatedFinalScore (sim : List ℚ → List ℚ → ℚ) (memory other : MemoryItem) :
    ℚ :=
  sim memory.embedding other.embedding +
    (if 0 < topicOverlapCount memory other then 1 / 10 else 0)

/-- The collection loop of `findRelatedMemories`: walk the corpus in order,
skip the memory itself, and keep the id of every other memory whose
`finalScore` reaches the threshold. -/
def relatedLoop (sim : List ℚ → List ℚ → ℚ) (memory : MemoryItem)
    (threshold : ℚ) : List MemoryItem → List String
  | [] => []
  | other :: rest =>
    if other.id = memory.id then relatedLoop sim memory threshold rest
    else if relatedFinalScore sim memory other ≥ threshold then
      other.id :: relatedLoop sim memory threshold rest
    else relatedLoop sim memory threshold rest

/-- `findRelatedMemories`: ids collected in corpus order, truncated to the
first 5. The source default for `threshold` is `0.65`. -/
def findRelatedMemories (sim : List ℚ → List ℚ → ℚ) (memory : MemoryItem)
    (allMemories : List MemoryItem) (threshold : ℚ) : List String :=
  (relatedLoop sim memory threshold allMemories).take 5

/-- The bidirectional update in `handleSave`: append the new memory id to an
existing related memory, touching only `relatedMemoryIds`. -/
def updateRelatedMemory (related : MemoryItem) (newId : String) : MemoryItem :=
  { related with
    aiMetadata :=
      { related.aiMetadata with
        relatedMemoryIds :=
          some (related.aiMetadata.relatedMemoryIds.getD [] ++ [newId]) } }

/-! ### Resurfacing selector (`handleResurface` in the app component) -/

/-- Resurfacing score of one memory: importance (`|| 0.5`), plus `0.3` for
the one-week-to-one-month sweet spot, else plus `0.2` beyond one month,
minus `0.1` per previous resurfacing (no floor). -/
def resurfaceScore (now : ℤ) (m : MemoryItem) : ℚ :=
  let lastSeen := jsOrZ m.lastResurfaced m.createdAt
  let age := now - lastSeen
  let importance := jsOrQ m.aiMetadata.importance (1 / 2)
  let resurfaceCount := m.resurfaceCount.getD 0
  let score := importance
  let score :=
    if age > ONE_WEEK_MS ∧ age < ONE_MONTH_MS then score + 3 / 10
    else if age > ONE_MONTH_MS then score + 1 / 5
    else score
  score - (resurfaceCount : ℚ) * (1 / 10)

/-- The resurfacing bookkeeping update: stamp `lastResurfaced` with the call
time and increment `resurfaceCount` (default 0), touching nothing else. -/
def resurfaceUpdate (m : MemoryItem) (now : ℤ) : MemoryItem :=
  { m with
    lastResurfaced := some now,
    resurfaceCount := some (m.resurfaceCount.getD 0 + 1) }

/-- The scored candidate list of `handleResurface`. -/
def resurfaceCandidates (memories : List MemoryItem) (now : ℤ) :
    List (MemoryItem × ℚ) :=
  memories.map (fun m => (m, resurfaceScore now m))

/-- Selection of `handleResurface`: sort candidates descending by score
(stable), take the top 5, and return the updated memory objects. -/
def resurfaceSelect (memories : List MemoryItem) (now : ℤ) : List MemoryItem :=
  (((resurfaceCandidates memories now).insertionSort
      (fun a b => a.2 ≥ b.2)).take 5).map (fun c => resurfaceUpdate c.1 now)

/-- The sequence of `saveMemory` store writes issued by `handleResurface`,
in order: each selected item is persisted by its own independent write of
the updated object. -/
def resurfaceWrites (memories : List MemoryItem) (now : ℤ) : List MemoryItem :=
  (((resurfaceCandidates memories now).insertionSort
      (fun a b => a.2 ≥ b.2)).take 5).map (fun c => resurfaceUpdate c.1 now)

/-- `handleResurface`: returns nothing on an empty corpus (early return in
the source), otherwise the selected updated memories in score order. -/
def handleResurface (memories : List MemoryItem) (now : ℤ) :
    Option (List MemoryItem) :=
  if memories.length = 0 then none else some (resurfaceSelect memories now)

/-! ### Insight miner (`generateInsights` in `services/gemini.ts`) -/

/-- One `topicFrequency[topic] = (topicFrequency[topic] || 0) + 1` step on a
frequency table kept in insertion order, as a JavaScript object with string
keys. -/
def bumpTopic (acc : List (String × ℕ)) (topic : String) : List (String × ℕ) :=
  match acc with
  | [] => [(topic, 1)]
  | (k, v) :: rest =>
    if k == topic then (k, v + 1) :: rest else (k, v) :: bumpTopic rest topic

/-- Topic frequency across the corpus: every occurrence of a topic string in
a memory increments its counter. -/
def topicFrequency (memories : List MemoryItem) : List (String × ℕ) :=
  memories.foldl (fun acc m => m.aiMetadata.topics.foldl bumpTopic acc) []

/-- `generateInsights`: empty below 3 memories; otherwise the top-3
frequency topics with count at least 2 each yield a pattern insight (when at
least 2 memories carry the topic), followed by one reminder insight when
important memories have gone unseen for over a month. -/
def generateInsights (memories : List MemoryItem) (now : ℤ) : List Insight :=
  if memories.length < 3 then []
  else
    let topTopics :=
      (((topicFrequency memories).insertionSort
          (fun a b => a.2 ≥ b.2)).take 3).filter (fun e => decide (2 ≤ e.2))
    let patternInsights := topTopics.flatMap (fun e =>
      let relatedMemories :=
        (memories.filter (fun m => m.aiMetadata.topics.contains e.1)).map
          (fun m => m.id)
      if 2 ≤ relatedMemories.length then
        [{ type := .pattern,
           title := "Recurring Topic: " ++ e.1,
           description := "You\x27ve saved " ++ toString e.2 ++
             " memories related to " ++ e.1,
           memoryIds := relatedMemories,
           relevance := min 1 ((e.2 : ℚ) / (memories.length : ℚ)) }]
      else [])
    let forgottenMemories :=
      ((memories.filter (fun m =>
          decide (ONE_MONTH_MS < now - jsOrZ m.lastResurfaced m.createdAt) &&
            decide (3 / 5 < jsOrQ m.aiMetadata.importance (1 / 2)))).take 3).map
        (fun m => m.id)
    let reminderInsights :=
      if 0 < forgottenMemories.length then
        [{ type := .reminder,
           title := "Important Memories to Revisit",
           description := "You have " ++ toString forgottenMemories.length ++
             " important memories you haven\x27t seen in a while",
           memoryIds := forgottenMemories,
           relevance := 4 / 5 }]
      else []
    patternInsights ++ reminderInsights

/-! ### AI analysis defaulting (`analyzeContent` in `services/gemini.ts`)

The provider response is parsed with `JSON.parse` and never validated against
a schema, so the parsed value is modelled as a JSON value. -/

/-- A JSON value as produced by `JSON.parse`. -/
inductive JValue where
  | jnull
  | jbool (b : Bool)
  | jnum (q : ℚ)
  | jstr (s : String)
  | jarr (elems : List JValue)
  | jobj (fields : List (String × JValue))

/-- JavaScript truthiness of a JSON value (`null`, `false`, `0` and the empty
string are falsy; arrays and objects are truthy). -/
def jsTruthy : JValue → Bool
  | .jnull => false
  | .jbool b => b
  | .jnum q => decide (q ≠ 0)
  | .jstr s => decide (s ≠ "")
  | .jarr _ => true
  | .jobj _ => true

/-- Property access `v[k]` on a parsed JSON value: a lookup on objects,
`undefined` (here `none`) on every other non-null value. -/
def getField (v : JValue) (k : String) : Option JValue :=
  match v with
  | .jobj fields => (fields.find? (fun f => f.1 == k)).map (fun f => f.2)
  | _ => none

/-- JavaScript `x || d` on a possibly-undefined JSON value. -/
def jsOrElse (v : Option JValue) (d : JValue) : JValue :=
  match v with
  | none => d
  | some x => if jsTruthy x then x else d

/-- `Array.isArray(x) ? x : []`. -/
def jsArray (v : Option JValue) : List JValue :=
  match v with
  | some (.jarr xs) => xs
  | _ => []

/-- The metadata object built by `analyzeContent`. The TypeScript return type
promises strings and string arrays, but the runtime values come from
unvalidated JSON, so the fields are modelled as JSON values. -/
structure AnalyzedMetadata where
  summary : JValue
  topics : List JValue
  mood : List JValue
  colors : List JValue
  collection : JValue
  importance : ℚ

/-- The fixed default metadata returned by the catch branch of
`analyzeContent`. -/
def defaultMetadata : AnalyzedMetadata where
  summary := .jstr "Could not analyze content."
  topics := [.jstr "Uncategorized"]
  mood := []
  colors := [.jstr "#CCCCCC"]
  collection := .jstr "General"
  importance := 1 / 2

/-- The per-field defaulting applied by `analyzeContent` to a successfully
parsed response object: `summary` and `collection` via `||`, the three
arrays via `Array.isArray`, and `importance` via a `typeof` check with
clamping into `[0, 1]`. -/
def parseMetadata (parsed : JValue) : AnalyzedMetadata :=
  { summary := jsOrElse (getField parsed "summary") (.jstr "No summary available.")
    topics := jsArray (getField parsed "topics")
    mood := jsArray (getField parsed "mood")
    colors := jsArray (getField parsed "colors")
    collection := jsOrElse (getField parsed "collection") (.jstr "General")
    importance :=
      match getField parsed "importance" with
      | some (.jnum q) => max 0 (min 1 q)
      | _ => 1 / 2 }

/-- The response-processing of `analyzeContent`. The argument is the parsed
provider response: `none` stands for every thrown path (no response text,
invalid JSON), and a parsed `null` also lands in the catch branch because
property access on `null` throws. Every other response gets the
field-by-field defaulting of `parseMetadata`. -/
def analyzeContent (response : Option JValue) : AnalyzedMetadata :=
  match response with
  | none => defaultMetadata
  | some .jnull => defaultMetadata
  | some parsed => parseMetadata parsed

/-! ### Concrete fixtures used by counterexamples and witnesses -/

/-- Metadata with every field empty or absent. -/
def noMeta : AIMetadata :=
  { summary := "", topics := [], mood := [], colors := [],
    collection := none, relatedMemoryIds := none, importance := none }

/-- A similarity function that always returns 0, as the cosine similarity
does on empty or mismatched embeddings. -/
def simZero : List ℚ → List ℚ → ℚ := fun _ _ => 0

/-- A note whose mood list (but not content, summary or topics) carries the
tag Calm. -/
def memCalm : MemoryItem :=
  { id := "m1", type := .note, content := "x", imageData := none,
    aiMetadata := { noMeta with summary := "y", mood := ["Calm"] },
    embedding := [], createdAt := 0, lastResurfaced := none,
    resurfaceCount := none }

/-- A memory with importance 0.7 and one previous resurfacing. -/
def memImp7 : MemoryItem :=
  { id := "m2", type := .note, content := "c", imageData := none,
    aiMetadata := { noMeta with importance := some (7 / 10) },
    embedding := [], createdAt := 0, lastResurfaced := none,
    resurfaceCount := some 1 }

/-! ### Claim C1 -/

/-- Claim C1 as stated is false: with an empty query embedding the source
never runs the boost-scoring map, so the memory `memCalm`, whose boosts
alone (computed here by `hybridScore` with zero similarity) give
`0.15 + 0.25 + 0.35 = 0.75 > 0.40` for the query "calm", is not returned:
the search falls back to the content+summary+topics substring filter, which
does not see the mood tag, and returns the empty scored list. -/
theorem C1_counterexample :
    hybridScore simZero [] (lowerStr "calm") 0 memCalm = 3 / 4 ∧
    (40 : ℚ) / 100 < 3 / 4 ∧
    performSearch simZero [] "calm" [memCalm] 0 = .scored [] := by
  refine ⟨?_, by norm_num, ?_⟩
  · simp +decide [hybridScore, simZero, memCalm, noMeta, allMetadataText]
    norm_num
  · simp +decide [performSearch, finalResults, hybridScored, fallbackResults,
      fallbackText, memCalm, noMeta]

/-- Claim C1, amended: in the hybrid search path, when the query embedding
is empty the boost-scoring loop is skipped entirely, and the engine returns
the substring-fallback results over content+summary+topics, every one with
the uniform artificial score 0.5; a memory whose boosts alone would exceed
0.40 is returned only if it passes that substring filter. -/
theorem C1_empty_embedding_fallback (sim : List ℚ → List ℚ → ℚ) (q : String)
    (ms : List MemoryItem) (NOW : ℤ)
    (hq : jsTrim q ≠ "") (hlen : ¬ q.length < 3) :
    performSearch sim [] q ms NOW = .scored (fallbackResults (lowerStr q) ms) ∧
    ∀ r ∈ fallbackResults (lowerStr q) ms, r.score = 1 / 2 := by
  constructor
  · simp [performSearch, hq, hlen, finalResults, hybridScored]
  · intro r hr
    simp only [fallbackResults, List.mem_map] at hr
    obtain ⟨m, -, rfl⟩ := hr
    rfl

/-- Witness for the amended claim C1 at the query "calm" over the corpus
`[memCalm]`. -/
theorem C1_witness :
    performSearch simZero [] "calm" [memCalm] 0 =
      .scored (fallbackResults (lowerStr "calm") [memCalm]) ∧
    ∀ r ∈ fallbackResults (lowerStr "calm") [memCalm], r.score = 1 / 2 :=
  C1_empty_embedding_fallback simZero "calm" [memCalm] 0 (by decide) (by decide)

/-! ### Claim C2 -/

/-- Claim C2 as stated is false at both interval boundaries: the source uses
strict comparisons (`age > ONE_WEEK`, `age < ONE_MONTH`, `age > ONE_MONTH`),
so a memory whose age is exactly 7 days gets no `+0.3` bonus and one whose
age is exactly 30 days gets no `+0.2` bonus. `memCalm` has default
importance 0.5 and no resurfacings, so the claim predicts scores `0.8` and
`0.7` at those ages, but the code yields `0.5` in both cases. -/
theorem C2_counterexample :
    resurfaceScore ONE_WEEK_MS memCalm = 1 / 2 ∧
    resurfaceScore ONE_MONTH_MS memCalm = 1 / 2 ∧
    (1 / 2 : ℚ) ≠ 1 / 2 + 3 / 10 ∧
    (1 / 2 : ℚ) ≠ 1 / 2 + 1 / 5 := by
  refine ⟨?_, ?_, by norm_num, by norm_num⟩ <;>
    · simp +decide [resurfaceScore, memCalm, noMeta, jsOrZ, jsOrQ,
        ONE_WEEK_MS, ONE_MONTH_MS, ONE_DAY_MS]
      try norm_num

/-- Claim C2, amended: the resurfacing score equals importance (`|| 0.5`,
so an importance of 0 also defaults) plus exactly 0.3 when
`7 days < age < 30 days`, plus exactly 0.2 when `age > 30 days`, plus
nothing when `age ≤ 7 days` or when the age is exactly 30 days, minus 0.1
per prior resurfacing with no lower floor; both interval boundaries are
exclusive. -/
theorem C2_resurface_score_cases (now : ℤ) (m : MemoryItem) :
    (ONE_WEEK_MS < now - jsOrZ m.lastResurfaced m.createdAt ∧
        now - jsOrZ m.lastResurfaced m.createdAt < ONE_MONTH_MS →
      resurfaceScore now m =
        jsOrQ m.aiMetadata.importance (1 / 2) + 3 / 10 -
          (m.resurfaceCount.getD 0 : ℚ) * (1 / 10)) ∧
    (ONE_MONTH_MS < now - jsOrZ m.lastResurfaced m.createdAt →
      resurfaceScore now m =
        jsOrQ m.aiMetadata.importance (1 / 2) + 1 / 5 -
          (m.resurfaceCount.getD 0 : ℚ) * (1 / 10)) ∧
    (now - jsOrZ m.lastResurfaced m.createdAt ≤ ONE_WEEK_MS ∨
        now - jsOrZ m.lastResurfaced m.createdAt = ONE_MONTH_MS →
      resurfaceScore now m =
        jsOrQ m.aiMetadata.importance (1 / 2) -
          (m.resurfaceCount.getD 0 : ℚ) * (1 / 10)) := by
  have week_lt_month : ONE_WEEK_MS < ONE_MONTH_MS := by
    norm_num [ONE_WEEK_MS, ONE_MONTH_MS, ONE_DAY_MS]
  simp only [resurfaceScore]
  refine ⟨fun h => ?_, fun h => ?_, fun h => ?_⟩
  · rw [if_pos h]
  · rw [if_neg (fun hc => lt_asymm h hc.2), if_pos h]
  · have hne1 : ¬(ONE_WEEK_MS < now - jsOrZ m.lastResurfaced m.createdAt ∧
        now - jsOrZ m.lastResurfaced m.createdAt < ONE_MONTH_MS) := by
      rcases h with h | h
      · exact fun hc => absurd hc.1 (not_lt.mpr h)
      · exact fun hc => absurd hc.2 (h ▸ lt_irrefl _)
    have hne2 : ¬(ONE_MONTH_MS < now - jsOrZ m.lastResurfaced m.createdAt) := by
      rcases h with h | h
      · exact not_lt.mpr (le_of_lt (lt_of_le_of_lt h week_lt_month))
      · exact fun hlt => lt_irrefl _ (h ▸ hlt)
    rw [if_neg hne1, if_neg hne2]

/-- Witness for the amended claim C2: `memImp7` (importance 0.7, one prior
resurfacing) at an age of 10 days scores `0.7 + 0.3 - 0.1 = 0.9`. -/
theorem C2_witness : resurfaceScore (10 * ONE_DAY_MS) memImp7 = 9 / 10 := by
  have h := (C2_resurface_score_cases (10 * ONE_DAY_MS) memImp7).1
    ⟨by decide, by decide⟩
  rw [h]
  norm_num [memImp7, noMeta, jsOrQ]

/-! ### Claim C3 -/

/-- The collection loop of the relation linker keeps, in corpus order, the
ids of exactly the non-self memories whose final score reaches the
threshold. -/
theorem relatedLoop_eq_filter (sim : List ℚ → List ℚ → ℚ) (memory : MemoryItem)
    (threshold : ℚ) (l : List MemoryItem) :
    relatedLoop sim memory threshold l =
      (l.filter (fun o => decide (o.id ≠ memory.id) &&
          decide (threshold ≤ relatedFinalScore sim memory o))).map
        (fun o => o.id) := by
  induction l with
  | nil => rfl
  | cons o rest ih =>
    by_cases hid : o.id = memory.id
    · simp [relatedLoop, List.filter_cons, hid, ih]
    · by_cases hs : threshold ≤ relatedFinalScore sim memory o
      · simp [relatedLoop, List.filter_cons, hid, hs, ih]
      · simp [relatedLoop, List.filter_cons, hid, hs, ih]

/-- Claim C3: `findRelatedMemories` never returns the id of the memory
itself,
returns at most 5 ids, returns only ids of corpus memories whose final score
(similarity plus 0.1 on positive case-insensitive topic overlap) reaches the
threshold, and equals the first 5 such matches in corpus-iteration order,
with no re-sorting by score. -/
theorem C3_findRelated_props (sim : List ℚ → List ℚ → ℚ) (memory : MemoryItem)
    (corpus : List MemoryItem) (threshold : ℚ) :
    memory.id ∉ findRelatedMemories sim memory corpus threshold ∧
    (findRelatedMemories sim memory corpus threshold).length ≤ 5 ∧
    (∀ i ∈ findRelatedMemories sim memory corpus threshold,
      ∃ other ∈ corpus, other.id = i ∧ other.id ≠ memory.id ∧
        threshold ≤ relatedFinalScore sim memory other) ∧
    findRelatedMemories sim memory corpus threshold =
      ((corpus.filter (fun o => decide (o.id ≠ memory.id) &&
          decide (threshold ≤ relatedFinalScore sim memory o))).map
        (fun o => o.id)).take 5 := by
  have heq : findRelatedMemories sim memory corpus threshold =
      ((corpus.filter (fun o => decide (o.id ≠ memory.id) &&
          decide (threshold ≤ relatedFinalScore sim memory o))).map
        (fun o => o.id)).take 5 := by
    unfold findRelatedMemories
    rw [relatedLoop_eq_filter]
  have hmem : ∀ i ∈ findRelatedMemories sim memory corpus threshold,
      ∃ other ∈ corpus, other.id = i ∧ other.id ≠ memory.id ∧
        threshold ≤ relatedFinalScore sim memory other := by
    intro i hi
    rw [heq] at hi
    have hi' := List.take_subset _ _ hi
    obtain ⟨o, ho, rfl⟩ := List.mem_map.mp hi'
    have ho' := List.mem_filter.mp ho
    refine ⟨o, ho'.1, rfl, ?_, ?_⟩
    · simpa using (Bool.and_eq_true _ _ |>.mp ho'.2).1
    · simpa using (Bool.and_eq_true _ _ |>.mp ho'.2).2
  refine ⟨?_, ?_, hmem, heq⟩
  · intro hself
    obtain ⟨other, -, hid, hne, -⟩ := hmem _ hself
    exact hne (hid.symm ▸ rfl)
  · rw [heq]
    exact List.length_take_le 5 _

/-- Witness instantiating claim C3 on a concrete corpus. -/
theorem C3_witness :
    (findRelatedMemories simZero memCalm [memImp7] (13 / 20)).length ≤ 5 :=
  (C3_findRelated_props simZero memCalm [memImp7] (13 / 20)).2.1

/-! ### Claim C4 -/

instance : IsTotal (MemoryItem × ℚ) (fun a b => a.2 ≥ b.2) :=
  ⟨fun a b => le_total b.2 a.2⟩

instance : IsTrans (MemoryItem × ℚ) (fun a b => a.2 ≥ b.2) :=
  ⟨fun _ _ _ h1 h2 => le_trans h2 h1⟩

instance : IsTotal SearchResult (fun a b => a.score ≥ b.score) :=
  ⟨fun a b => le_total b.score a.score⟩

instance : IsTrans SearchResult (fun a b => a.score ≥ b.score) :=
  ⟨fun _ _ _ h1 h2 => le_trans h2 h1⟩

/-- Claim C4: on a non-empty corpus, resurfacing returns exactly
`min 5 n` memories, namely the updated top scorers: the selected leading
segment of candidates is sorted descending by score and dominates every unselected
candidate; every returned memory has `lastResurfaced` set to the call time
and `resurfaceCount` equal to its previous value (default 0) plus 1; and the
persisted writes are exactly one independent per-item write of each
returned memory, in order. -/
theorem C4_resurface_props (memories : List MemoryItem) (now : ℤ)
    (h : memories ≠ []) :
    handleResurface memories now = some (resurfaceSelect memories now) ∧
    (resurfaceSelect memories now).length = min 5 memories.length ∧
    List.Sorted (fun a b => a.2 ≥ b.2)
      (((resurfaceCandidates memories now).insertionSort
          (fun a b => a.2 ≥ b.2)).take 5) ∧
    (∀ a ∈ ((resurfaceCandidates memories now).insertionSort
        (fun a b => a.2 ≥ b.2)).take 5,
      ∀ b ∈ ((resurfaceCandidates memories now).insertionSort
          (fun a b => a.2 ≥ b.2)).drop 5, b.2 ≤ a.2) ∧
    (∀ m' ∈ resurfaceSelect memories now,
      m'.lastResurfaced = some now ∧
      ∃ m ∈ memories, m' = resurfaceUpdate m now ∧
        m'.resurfaceCount = some (m.resurfaceCount.getD 0 + 1)) ∧
    resurfaceWrites memories now = resurfaceSelect memories now := by
  have hlen : ((resurfaceCandidates memories now).insertionSort
      (fun a b => a.2 ≥ b.2)).length = memories.length := by
    rw [(List.perm_insertionSort _ _).length_eq]
    simp [resurfaceCandidates]
  have hsorted : List.Sorted (fun a b => a.2 ≥ b.2)
      ((resurfaceCandidates memories now).insertionSort
        (fun a b => a.2 ≥ b.2)) :=
    List.sorted_insertionSort _ _
  refine ⟨?_, ?_, ?_, ?_, ?_, rfl⟩
  · unfold handleResurface
    rw [if_neg (fun hc => h (List.length_eq_zero.mp hc))]
  · simp only [resurfaceSelect, List.length_map, List.length_take, hlen]
  · exact hsorted.sublist (List.take_sublist 5 _)
  · have hsplit := hsorted
    rw [← List.take_append_drop 5 ((resurfaceCandidates memories now).insertionSort
      (fun a b => a.2 ≥ b.2))] at hsplit
    exact fun a ha b hb => (List.pairwise_append.mp hsplit).2.2 a ha b hb
  · intro m' hm'
    simp only [resurfaceSelect, List.mem_map] at hm'
    obtain ⟨c, hc, rfl⟩ := hm'
    have hc' : c ∈ (resurfaceCandidates memories now).insertionSort
        (fun a b => a.2 ≥ b.2) := List.take_subset 5 _ hc
    have hc'' : c ∈ resurfaceCandidates memories now :=
      (List.perm_insertionSort _ _).mem_iff.mp hc'
    simp only [resurfaceCandidates, List.mem_map] at hc''
    obtain ⟨m, hm, rfl⟩ := hc''
    exact ⟨rfl, m, hm, rfl, rfl⟩

/-- A memory of importance 0.9 created 40 days before the witness call. -/
def m40 : MemoryItem :=
  { id := "w1", type := .note, content := "a", imageData := none,
    aiMetadata := { noMeta with importance := some (9 / 10) },
    embedding := [], createdAt := 0, lastResurfaced := none,
    resurfaceCount := some 0 }

/-- A memory of importance 0.9 created 2 days before the witness call. -/
def m2 : MemoryItem :=
  { id := "w2", type := .note, content := "b", imageData := none,
    aiMetadata := { noMeta with importance := some (9 / 10) },
    embedding := [], createdAt := 38 * ONE_DAY_MS, lastResurfaced := none,
    resurfaceCount := some 0 }

/-- Witness for claim C4: a 2-memory corpus yields exactly `min 5 2 = 2`
updated memories. -/
theorem C4_witness :
    handleResurface [m40, m2] (40 * ONE_DAY_MS) =
      some (resurfaceSelect [m40, m2] (40 * ONE_DAY_MS)) ∧
    (resurfaceSelect [m40, m2] (40 * ONE_DAY_MS)).length = min 5 2 := by
  have h := C4_resurface_props [m40, m2] (40 * ONE_DAY_MS) (by simp)
  exact ⟨h.1, h.2.1⟩

/-! ### Claim C5 -/

/-- Every fallback result carries the uniform score 0.5. -/
theorem fallbackResults_score (lowerQ : String) (ms : List MemoryItem) :
    ∀ r ∈ fallbackResults lowerQ ms, r.score = 1 / 2 := by
  intro r hr
  obtain ⟨m, -, rfl⟩ := List.mem_map.mp hr
  rfl

/-- Claim C5: in the hybrid path the returned scored results are sorted
descending by final score and each has score strictly above 0.40; when the
over-threshold ranked set is empty, the result is exactly the
content+summary+topics substring fallback with uniform score 0.5 (which also
exceeds 0.40). -/
theorem C5_hybrid_sorted_threshold (sim : List ℚ → List ℚ → ℚ) (qe : List ℚ)
    (q : String) (ms : List MemoryItem) (NOW : ℤ)
    (hq : jsTrim q ≠ "") (hlen : ¬ q.length < 3) :
    ∃ rs, performSearch sim qe q ms NOW = .scored rs ∧
      List.Sorted (fun a b => a.score ≥ b.score) rs ∧
      (∀ r ∈ rs, (40 : ℚ) / 100 < r.score) ∧
      (finalResults sim qe (lowerStr q) NOW ms = [] →
        rs = fallbackResults (lowerStr q) ms ∧ ∀ r ∈ rs, r.score = 1 / 2) := by
  by_cases hz : (finalResults sim qe (lowerStr q) NOW ms).length = 0
  · refine ⟨fallbackResults (lowerStr q) ms, ?_, ?_, ?_,
      fun _ => ⟨rfl, fallbackResults_score _ _⟩⟩
    · simp [performSearch, hq, hlen, hz]
    · exact List.pairwise_of_forall_mem_list (fun a ha b hb => by
        rw [fallbackResults_score _ _ a ha, fallbackResults_score _ _ b hb])
    · intro r hr
      rw [fallbackResults_score _ _ r hr]
      norm_num
  · refine ⟨finalResults sim qe (lowerStr q) NOW ms, ?_, ?_, ?_,
      fun hc => absurd (by rw [hc]; rfl) hz⟩
    · simp [performSearch, hq, hlen, hz]
    · exact (List.sorted_insertionSort _ _).filter _
    · intro r hr
      have := (List.mem_filter.mp hr).2
      simpa using this

/-- A note tagged with the topic Red, used as a search witness. -/
def memRed : MemoryItem :=
  { id := "m3", type := .note, content := "z", imageData := none,
    aiMetadata := { noMeta with summary := "w", topics := ["Red"] },
    embedding := [1], createdAt := 0, lastResurfaced := none,
    resurfaceCount := none }

/-- Witness for claim C5 at the query "red" over `[memRed]` with a
one-dimensional query embedding. -/
theorem C5_witness :
    ∃ rs, performSearch simZero [1] "red" [memRed] 0 = .scored rs ∧
      ∀ r ∈ rs, (40 : ℚ) / 100 < r.score := by
  obtain ⟨rs, h1, -, h3, -⟩ :=
    C5_hybrid_sorted_threshold simZero [1] "red" [memRed] 0
      (by decide) (by decide)
  exact ⟨rs, h1, h3⟩

/-! ### Claim C6 -/

/-- Claim C6: a non-empty query shorter than 3 characters takes the
lexical-only path: the result does not depend on the similarity function,
the query embedding, or the clock (so no embedding call is issued), and it
is exactly the corpus filter of memories whose content, summary, or some
topic contains the lowercased query, in corpus order (a sublist of the
corpus). -/
theorem C6_short_query_lexical (sim sim2 : List ℚ → List ℚ → ℚ)
    (e1 e2 : List ℚ) (q : String) (ms : List MemoryItem) (NOW NOW2 : ℤ)
    (hq : jsTrim q ≠ "") (hlen : q.length < 3) :
    performSearch sim e1 q ms NOW = performSearch sim2 e2 q ms NOW2 ∧
    ∃ l, performSearch sim e1 q ms NOW = .plain l ∧
      (∀ m, m ∈ l ↔ m ∈ ms ∧ shortQueryMatch (lowerStr q) m = true) ∧
      l.Sublist ms := by
  have hplain : ∀ (s : List ℚ → List ℚ → ℚ) (e : List ℚ) (t : ℤ),
      performSearch s e q ms t = .plain (ms.filter (shortQueryMatch (lowerStr q))) := by
    intro s e t
    simp [performSearch, hq, hlen]
  refine ⟨(hplain sim e1 NOW).trans (hplain sim2 e2 NOW2).symm,
    ms.filter (shortQueryMatch (lowerStr q)), hplain sim e1 NOW, ?_, ?_⟩
  · intro m
    exact List.mem_filter
  · exact List.filter_sublist ms

/-- A note whose content contains the two-character query "hi". -/
def memHi : MemoryItem :=
  { id := "m4", type := .note, content := "Hi there", imageData := none,
    aiMetadata := noMeta, embedding := [], createdAt := 0,
    lastResurfaced := none, resurfaceCount := none }

/-- Witness for claim C6 at the query "hi" over `[memHi]`: the result is a
plain lexical filter and is independent of embedding and clock. -/
theorem C6_witness :
    performSearch simZero [3] "hi" [memHi] 5 =
      performSearch simZero [] "hi" [memHi] 0 ∧
    ∃ l, performSearch simZero [3] "hi" [memHi] 5 = .plain l := by
  obtain ⟨h1, l, h2, -, -⟩ :=
    C6_short_query_lexical simZero simZero [3] [] "hi" [memHi] 5 0
      (by decide) (by decide)
  exact ⟨h1, l, h2⟩

/-! ### Claim C7 -/

/-- Claim C7: the search result is `null` (`noFilter`) exactly when the
query is empty or whitespace-only; and for a non-empty query matching no
memory by any heuristic (no short-query match, no fallback substring match,
no hybrid score above 0.40), the result is an empty sequence, never
`null`. -/
theorem C7_null_iff_empty_query (sim : List ℚ → List ℚ → ℚ) (qe : List ℚ)
    (q : String) (ms : List MemoryItem) (NOW : ℤ) :
    (performSearch sim qe q ms NOW = .noFilter ↔ jsTrim q = "") ∧
    (jsTrim q ≠ "" →
      (∀ m ∈ ms, shortQueryMatch (lowerStr q) m = false) →
      (∀ m ∈ ms, strIncludes (fallbackText m) (lowerStr q) = false) →
      (∀ r ∈ hybridScored sim qe (lowerStr q) NOW ms,
        ¬ (40 : ℚ) / 100 < r.score) →
      (performSearch sim qe q ms NOW = .plain [] ∨
        performSearch sim qe q ms NOW = .scored [])) := by
  constructor
  · constructor
    · intro h
      by_contra hne
      rw [performSearch, if_neg hne] at h
      by_cases hlen : q.length < 3
      · rw [if_pos hlen] at h
        exact SearchOutput.noConfusion h
      · rw [if_neg hlen] at h
        by_cases hz : (finalResults sim qe (lowerStr q) NOW ms).length = 0 <;>
          simp [hz] at h
    · intro h
      rw [performSearch, if_pos h]
  · intro hq hshort hfall hscore
    have hfallback : fallbackResults (lowerStr q) ms = [] := by
      rw [fallbackResults, List.filter_eq_nil_iff.mpr, List.map_nil]
      intro m hm
      simp [hfall m hm]
    by_cases hlen : q.length < 3
    · left
      rw [performSearch, if_neg hq, if_pos hlen,
        List.filter_eq_nil_iff.mpr]
      intro m hm
      simp [hshort m hm]
    · right
      have hfinal : finalResults sim qe (lowerStr q) NOW ms = [] := by
        rw [finalResults, List.filter_eq_nil_iff.mpr]
        intro r hr
        have hr' := (List.perm_insertionSort
          (fun a b : SearchResult => a.score ≥ b.score)
          (hybridScored sim qe (lowerStr q) NOW ms)).subset hr
        simpa using hscore r hr'
      rw [performSearch, if_neg hq, if_neg hlen]
      simp [hfinal, hfallback]

/-- Witness for claim C7: the query "zzz" matches nothing in `[memCalm]`
and yields an empty scored sequence rather than `noFilter`. -/
theorem C7_witness :
    performSearch simZero [] "zzz" [memCalm] 0 = .plain [] ∨
    performSearch simZero [] "zzz" [memCalm] 0 = .scored [] :=
  (C7_null_iff_empty_query simZero [] "zzz" [memCalm] 0).2
    (by decide) (by decide) (by decide) (by simp [hybridScored])

/-! ### Claim C8 -/

/-- A note carrying only the given topic tags. -/
def mkTagged (i : String) (ts : List String) : MemoryItem :=
  { id := i, type := .note, content := "", imageData := none,
    aiMetadata := { noMeta with topics := ts }, embedding := [],
    createdAt := 0, lastResurfaced := none, resurfaceCount := none }

/-- The corpus of the claimed scenario: 5 memories tagged Design and 1
tagged Travel. -/
def designCorpus : List MemoryItem :=
  [mkTagged "d1" ["Design"], mkTagged "d2" ["Design"], mkTagged "d3" ["Design"],
   mkTagged "d4" ["Design"], mkTagged "d5" ["Design"], mkTagged "t1" ["Travel"]]

/-- A 3-memory corpus in which one memory lists the topic A twice. -/
def dupCorpus : List MemoryItem :=
  [mkTagged "a1" ["A", "A"], mkTagged "a2" ["A"], mkTagged "a3" []]

/-- Claim C8 as stated is false on two points. The claimed scenario (5
memories tagged Design, 1 tagged Travel) yields a single pattern insight
whose relevance is `min(1, 5/6) = 5/6`, not 1.0, because the corpus has 6
memories. And a topic duplicated inside one memory is counted once per
occurrence, not once per memory: in `dupCorpus` the topic A is counted 3
times across 3 memories, so the insight relevance is `min(1, 3/3) = 1`
where per-distinct counting would give `2/3`. -/
theorem C8_counterexample :
    (generateInsights designCorpus 0).map (fun i => i.relevance) = [5 / 6] ∧
    (5 / 6 : ℚ) ≠ 1 ∧
    (generateInsights dupCorpus 0).map (fun i => i.relevance) = [1] ∧
    (1 : ℚ) ≠ 2 / 3 := by
  refine ⟨?_, by norm_num, ?_, by norm_num⟩
  · have htf : topicFrequency designCorpus = [("Design", 5), ("Travel", 1)] := by
      decide
    simp +decide [generateInsights, htf, designCorpus, mkTagged, noMeta,
      List.insertionSort, List.orderedInsert, jsOrZ, jsOrQ, ONE_MONTH_MS,
      ONE_DAY_MS]
    try norm_num
  · have htf : topicFrequency dupCorpus = [("A", 3)] := by decide
    simp +decide [generateInsights, htf, dupCorpus, mkTagged, noMeta,
      List.insertionSort, List.orderedInsert, jsOrZ, jsOrQ, ONE_MONTH_MS,
      ONE_DAY_MS]
    try norm_num

/-- Lookup `topicFrequency[topic] || 0` on the insertion-ordered frequency
table. -/
def lookupCount : List (String × ℕ) → String → ℕ
  | [], _ => 0
  | (k, v) :: rest, t => if k == t then v else lookupCount rest t

/-- The `topTopics` of `generateInsights`: the frequency table sorted
descending by count (stable), truncated to 3 entries, and restricted to
counts of at least 2. -/
def patternTopicEntries (memories : List MemoryItem) : List (String × ℕ) :=
  (((topicFrequency memories).insertionSort
      (fun a b => a.2 ≥ b.2)).take 3).filter (fun e => decide (2 ≤ e.2))

/-- The `relatedMemories` of one pattern-insight candidate: ids of the
memories whose topic list contains the topic (case-sensitive). -/
def topicCarrierIds (memories : List MemoryItem) (t : String) : List String :=
  (memories.filter (fun m => m.aiMetadata.topics.contains t)).map
    (fun m => m.id)

/-- The pattern insight emitted for one frequency-table entry. -/
def patternInsightFor (memories : List MemoryItem) (e : String × ℕ) :
    Insight :=
  { type := .pattern,
    title := "Recurring Topic: " ++ e.1,
    description := "You\x27ve saved " ++ toString e.2 ++
      " memories related to " ++ e.1,
    memoryIds := topicCarrierIds memories e.1,
    relevance := min 1 ((e.2 : ℚ) / (memories.length : ℚ)) }

/-- All pattern insights of `generateInsights`: one per qualifying top
topic, kept only when at least 2 memories carry the topic. -/
def patternInsights (memories : List MemoryItem) : List Insight :=
  (patternTopicEntries memories).flatMap (fun e =>
    if 2 ≤ (topicCarrierIds memories e.1).length then
      [patternInsightFor memories e]
    else [])

/-- The `forgottenMemories` ids of `generateInsights`. -/
def forgottenIds (memories : List MemoryItem) (now : ℤ) : List String :=
  ((memories.filter (fun m =>
      decide (ONE_MONTH_MS < now - jsOrZ m.lastResurfaced m.createdAt) &&
        decide (3 / 5 < jsOrQ m.aiMetadata.importance (1 / 2)))).take 3).map
    (fun m => m.id)

/-- The reminder insight of `generateInsights`, when any forgotten important
memory exists. -/
def reminderInsights (memories : List MemoryItem) (now : ℤ) : List Insight :=
  if 0 < (forgottenIds memories now).length then
    [{ type := .reminder,
       title := "Important Memories to Revisit",
       description := "You have " ++ toString (forgottenIds memories now).length ++
         " important memories you haven\x27t seen in a while",
       memoryIds := forgottenIds memories now,
       relevance := 4 / 5 }]
  else []

/-- Above the 3-memory threshold, `generateInsights` is the pattern insights
followed by the reminder insights. -/
theorem generateInsights_eq (memories : List MemoryItem) (now : ℤ)
    (h3 : ¬ memories.length < 3) :
    generateInsights memories now =
      patternInsights memories ++ reminderInsights memories now := by
  rw [generateInsights, if_neg h3]
  rfl

/-- One `bumpTopic` step increments exactly the bumped key. -/
theorem lookupCount_bumpTopic (acc : List (String × ℕ)) (s t : String) :
    lookupCount (bumpTopic acc s) t =
      lookupCount acc t + (if s = t then 1 else 0) := by
  induction acc with
  | nil =>
    by_cases h : s = t
    · subst h
      simp [bumpTopic, lookupCount]
    · simp [bumpTopic, lookupCount, h]
  | cons kv rest ih =>
    obtain ⟨k, v⟩ := kv
    by_cases hks : k = s
    · subst hks
      rw [bumpTopic, if_pos (by simp)]
      by_cases hkt : k = t
      · subst hkt
        simp [lookupCount]
      · simp [lookupCount, hkt]
    · rw [bumpTopic, if_neg (by simpa using hks)]
      by_cases hkt : k = t
      · subst hkt
        have hst : ¬ s = k := fun h => hks h.symm
        simp [lookupCount, hst]
      · simp [lookupCount, hkt, ih]

/-- Folding one topic list over `bumpTopic` adds the occurrence count of
every topic. -/
theorem lookupCount_foldl_topics (ts : List String)
    (acc : List (String × ℕ)) (t : String) :
    lookupCount (ts.foldl bumpTopic acc) t =
      lookupCount acc t + ts.count t := by
  induction ts generalizing acc with
  | nil => simp [lookupCount]
  | cons s rest ih =>
    rw [List.foldl_cons, ih, lookupCount_bumpTopic]
    by_cases h : s = t
    · simp [List.count_cons, h]
      omega
    · simp [List.count_cons, h]

/-- The frequency table counts one increment per topic-string occurrence per
memory: the recorded count of every topic is the sum over the corpus of its
occurrence counts inside each topic list. -/
theorem lookupCount_topicFrequency (memories : List MemoryItem) (t : String) :
    lookupCount (topicFrequency memories) t =
      (memories.map (fun m => m.aiMetadata.topics.count t)).sum := by
  have h : ∀ (mems : List MemoryItem) (acc : List (String × ℕ)),
      lookupCount (mems.foldl
          (fun acc m => m.aiMetadata.topics.foldl bumpTopic acc) acc) t =
        lookupCount acc t +
          (mems.map (fun m => m.aiMetadata.topics.count t)).sum := by
    intro mems
    induction mems with
    | nil => intro acc; simp
    | cons m rest ih =>
      intro acc
      rw [List.foldl_cons, ih, lookupCount_foldl_topics, List.map_cons,
        List.sum_cons]
      omega
  simpa [topicFrequency, lookupCount] using h memories []

/-- Membership in the pattern insights: exactly the insights of the
qualifying top topics with at least 2 carrying memories. -/
theorem mem_patternInsights (memories : List MemoryItem) (i : Insight) :
    i ∈ patternInsights memories ↔
      ∃ e ∈ patternTopicEntries memories,
        2 ≤ (topicCarrierIds memories e.1).length ∧
        i = patternInsightFor memories e := by
  simp only [patternInsights, List.mem_flatMap]
  constructor
  · rintro ⟨e, he, hi⟩
    by_cases hc : 2 ≤ (topicCarrierIds memories e.1).length
    · rw [if_pos hc] at hi
      simp only [List.mem_singleton] at hi
      exact ⟨e, he, hc, hi⟩
    · rw [if_neg hc] at hi
      simp at hi
  · rintro ⟨e, he, hc, rfl⟩
    exact ⟨e, he, by rw [if_pos hc]; simp⟩

/-- Every reminder insight has type `reminder`. -/
theorem reminderInsights_type (memories : List MemoryItem) (now : ℤ)
    (i : Insight) (hi : i ∈ reminderInsights memories now) :
    i.type = .reminder := by
  rw [reminderInsights] at hi
  split_ifs at hi
  · simp only [List.mem_singleton] at hi
    subst hi
    rfl
  · simp at hi

/-- A flat map producing at most one element per entry does not grow the
list. -/
theorem length_flatMap_le_one {α β : Type} (l : List α) (f : α → List β)
    (h : ∀ a, (f a).length ≤ 1) : (l.flatMap f).length ≤ l.length := by
  induction l with
  | nil => simp
  | cons a rest ih =>
    rw [List.flatMap_cons, List.length_append, List.length_cons]
    have := h a
    omega

/-- Claim C8, amended: for every corpus with at least 3 memories, insight
mining counts topic frequency case-sensitively with one increment per
topic-string occurrence per memory (a duplicated topic inside one memory
counts once per occurrence), emits at most 3 pattern insights, and a
pattern insight is emitted exactly for the top-3-by-frequency topics with
count at least 2 whose carrying memories number at least 2; each such
insight lists exactly the carrying memories and has
`relevance = min(1, count / totalMemories)`. The 5-Design/1-Travel corpus
yields exactly one pattern insight, for Design, with relevance `5/6` (not
1.0, since that corpus has 6 memories); the duplicated-topic corpus gets
occurrence count 3 from its 2 carrying memories and relevance 1. -/
theorem C8_insights_props (memories : List MemoryItem) (now : ℤ)
    (h3 : 3 ≤ memories.length) :
    (∀ t : String, lookupCount (topicFrequency memories) t =
        (memories.map (fun m => m.aiMetadata.topics.count t)).sum) ∧
    ((generateInsights memories now).filter
        (fun i => decide (i.type = .pattern))).length ≤ 3 ∧
    (∀ i ∈ generateInsights memories now, i.type = .pattern →
      ∃ e ∈ patternTopicEntries memories,
        2 ≤ e.2 ∧
        i = patternInsightFor memories e ∧
        i.memoryIds = topicCarrierIds memories e.1 ∧
        2 ≤ i.memoryIds.length ∧
        i.relevance = min 1 ((e.2 : ℚ) / (memories.length : ℚ))) ∧
    (∀ e ∈ patternTopicEntries memories,
      2 ≤ (topicCarrierIds memories e.1).length →
      patternInsightFor memories e ∈ generateInsights memories now) ∧
    generateInsights designCorpus 0 =
      [{ type := .pattern, title := "Recurring Topic: Design",
         description := "You\x27ve saved 5 memories related to Design",
         memoryIds := ["d1", "d2", "d3", "d4", "d5"],
         relevance := 5 / 6 }] ∧
    generateInsights dupCorpus 0 =
      [{ type := .pattern, title := "Recurring Topic: A",
         description := "You\x27ve saved 3 memories related to A",
         memoryIds := ["a1", "a2"],
         relevance := 1 }] := by
  have h3' : ¬ memories.length < 3 := by omega
  have heq := generateInsights_eq memories now h3'
  refine ⟨lookupCount_topicFrequency memories, ?_, ?_, ?_, ?_, ?_⟩
  · rw [heq, List.filter_append]
    have hrem : (reminderInsights memories now).filter
        (fun i => decide (i.type = .pattern)) = [] := by
      rw [List.filter_eq_nil_iff]
      intro i hi
      simp [reminderInsights_type memories now i hi]
    rw [hrem, List.append_nil]
    calc ((patternInsights memories).filter
          (fun i => decide (i.type = .pattern))).length
        ≤ (patternInsights memories).length := List.length_filter_le _ _
      _ ≤ (patternTopicEntries memories).length :=
          length_flatMap_le_one _ _ (fun e => by split_ifs <;> simp)
      _ ≤ (((topicFrequency memories).insertionSort
            (fun a b => a.2 ≥ b.2)).take 3).length :=
          List.length_filter_le _ _
      _ ≤ 3 := List.length_take_le 3 _
  · intro i hi htype
    rw [heq, List.mem_append] at hi
    rcases hi with hi | hi
    · obtain ⟨e, he, hc, rfl⟩ := (mem_patternInsights memories i).mp hi
      have he2 : 2 ≤ e.2 := by
        have := (List.mem_filter.mp he).2
        simpa using this
      exact ⟨e, he, he2, rfl, rfl, hc, rfl⟩
    · exact absurd (reminderInsights_type memories now i hi)
        (by rw [htype]; exact fun h => InsightType.noConfusion h)
  · intro e he hc
    rw [heq, List.mem_append]
    exact Or.inl ((mem_patternInsights memories _).mpr ⟨e, he, hc, rfl⟩)
  · have htf : topicFrequency designCorpus = [("Design", 5), ("Travel", 1)] := by
      decide
    simp +decide [generateInsights, htf, designCorpus, mkTagged, noMeta,
      List.insertionSort, List.orderedInsert, jsOrZ, jsOrQ, ONE_MONTH_MS,
      ONE_DAY_MS]
    try norm_num
  · have htf : topicFrequency dupCorpus = [("A", 3)] := by decide
    simp +decide [generateInsights, htf, dupCorpus, mkTagged, noMeta,
      List.insertionSort, List.orderedInsert, jsOrZ, jsOrQ, ONE_MONTH_MS,
      ONE_DAY_MS]
    try norm_num

/-- Witness for the amended claim C8 on the Design corpus: the hypothesis
holds (6 memories), the per-occurrence count characterisation applies to
the topic Design, and at most 3 pattern insights are emitted. -/
theorem C8_witness :
    lookupCount (topicFrequency designCorpus) "Design" =
      (designCorpus.map (fun m => m.aiMetadata.topics.count "Design")).sum ∧
    ((generateInsights designCorpus 0).filter
        (fun i => decide (i.type = .pattern))).length ≤ 3 := by
  have h := C8_insights_props designCorpus 0 (by decide)
  exact ⟨h.1 "Design", h.2.1⟩

/-! ### Claim C9 -/

/-- Claim C9: the bidirectional update of the relation linker changes only
`relatedMemoryIds`, and the resurfacing bookkeeping changes only
`lastResurfaced` and `resurfaceCount`; every other field of the affected
memory (id, type, content, media payload, embedding, creation time, and all
remaining metadata fields) is unchanged. -/
theorem C9_frame_conditions (related : MemoryItem) (newId : String)
    (m : MemoryItem) (now : ℤ) :
    (updateRelatedMemory related newId).id = related.id ∧
    (updateRelatedMemory related newId).type = related.type ∧
    (updateRelatedMemory related newId).content = related.content ∧
    (updateRelatedMemory related newId).imageData = related.imageData ∧
    (updateRelatedMemory related newId).embedding = related.embedding ∧
    (updateRelatedMemory related newId).createdAt = related.createdAt ∧
    (updateRelatedMemory related newId).lastResurfaced = related.lastResurfaced ∧
    (updateRelatedMemory related newId).resurfaceCount = related.resurfaceCount ∧
    (updateRelatedMemory related newId).aiMetadata.summary =
      related.aiMetadata.summary ∧
    (updateRelatedMemory related newId).aiMetadata.topics =
      related.aiMetadata.topics ∧
    (updateRelatedMemory related newId).aiMetadata.mood =
      related.aiMetadata.mood ∧
    (updateRelatedMemory related newId).aiMetadata.colors =
      related.aiMetadata.colors ∧
    (updateRelatedMemory related newId).aiMetadata.collection =
      related.aiMetadata.collection ∧
    (updateRelatedMemory related newId).aiMetadata.importance =
      related.aiMetadata.importance ∧
    (resurfaceUpdate m now).id = m.id ∧
    (resurfaceUpdate m now).type = m.type ∧
    (resurfaceUpdate m now).content = m.content ∧
    (resurfaceUpdate m now).imageData = m.imageData ∧
    (resurfaceUpdate m now).aiMetadata = m.aiMetadata ∧
    (resurfaceUpdate m now).embedding = m.embedding ∧
    (resurfaceUpdate m now).createdAt = m.createdAt :=
  ⟨rfl, rfl, rfl, rfl, rfl, rfl, rfl, rfl, rfl, rfl, rfl, rfl, rfl, rfl,
    rfl, rfl, rfl, rfl, rfl, rfl, rfl⟩

/-! ### Claim C10 -/

/-- JavaScript `x || d` yields a truthy value whenever the default is
truthy. -/
theorem jsTruthy_jsOrElse (v : Option JValue) (d : JValue)
    (hd : jsTruthy d = true) : jsTruthy (jsOrElse v d) = true := by
  cases v with
  | none => exact hd
  | some x =>
    rw [jsOrElse]
    split_ifs with h
    · exact h
    · exact hd

/-- A truthy JSON string is non-empty. -/
theorem ne_empty_of_truthy_str {s : String} (h : jsTruthy (.jstr s) = true) :
    s ≠ "" := by
  simpa [jsTruthy] using h

/-- Claim C10 as stated is false: the source guards `summary` only with
`parsed.summary || "No summary available."`, so a truthy non-string
provider value passes through unchanged. On the response
`{"summary": 1}` the returned summary is the number 1, not a non-empty
string. -/
theorem C10_counterexample :
    (analyzeContent (some (.jobj [("summary", .jnum 1)]))).summary =
      .jnum 1 ∧
    ∀ s : String, JValue.jnum 1 ≠ .jstr s := by
  constructor
  · have h1 : getField (.jobj [("summary", .jnum 1)]) "summary" =
        some (.jnum 1) := by
      simp +decide [getField]
    have h2 : jsTruthy (.jnum 1) = true := by
      norm_num [jsTruthy]
    have h3 : analyzeContent (some (.jobj [("summary", .jnum 1)])) =
        parseMetadata (.jobj [("summary", .jnum 1)]) := rfl
    rw [h3]
    simp [parseMetadata, h1, jsOrElse, h2]
  · intro s h
    exact JValue.noConfusion h

/-- Claim C10, amended: on every provider response (successful parse as
well as total failure) the returned metadata has `importance` in `[0, 1]`
(clamped when the provider returns a number, `0.5` otherwise), the three
array fields are always lists (defaulted to `[]` field-by-field when the
provider field is not an array), and `summary` and `collection` are always
truthy values defaulting field-by-field to "No summary available." and
"General" — in particular, whenever they are strings they are non-empty;
but they are not guaranteed to be strings when the provider returns a
truthy non-string. -/
theorem C10_metadata_invariants (response : Option JValue) :
    0 ≤ (analyzeContent response).importance ∧
    (analyzeContent response).importance ≤ 1 ∧
    jsTruthy (analyzeContent response).summary = true ∧
    jsTruthy (analyzeContent response).collection = true ∧
    (∀ s, (analyzeContent response).summary = .jstr s → s ≠ "") ∧
    (∀ s, (analyzeContent response).collection = .jstr s → s ≠ "") := by
  have hparse : ∀ parsed : JValue,
      0 ≤ (parseMetadata parsed).importance ∧
      (parseMetadata parsed).importance ≤ 1 ∧
      jsTruthy (parseMetadata parsed).summary = true ∧
      jsTruthy (parseMetadata parsed).collection = true := by
    intro parsed
    have hsum : (parseMetadata parsed).summary =
        jsOrElse (getField parsed "summary") (.jstr "No summary available.") :=
      rfl
    have hcol : (parseMetadata parsed).collection =
        jsOrElse (getField parsed "collection") (.jstr "General") := rfl
    have himp : (parseMetadata parsed).importance =
        (match getField parsed "importance" with
          | some (.jnum q) => max 0 (min 1 q)
          | _ => 1 / 2) := rfl
    refine ⟨?_, ?_, hsum ▸ jsTruthy_jsOrElse _ _ (by decide),
      hcol ▸ jsTruthy_jsOrElse _ _ (by decide)⟩ <;>
    · rw [himp]
      cases hg : getField parsed "importance" with
      | none => norm_num
      | some v =>
        cases v <;> norm_num
  have key : 0 ≤ (analyzeContent response).importance ∧
      (analyzeContent response).importance ≤ 1 ∧
      jsTruthy (analyzeContent response).summary = true ∧
      jsTruthy (analyzeContent response).collection = true := by
    match response with
    | none =>
      refine ⟨by norm_num [analyzeContent, defaultMetadata],
        by norm_num [analyzeContent, defaultMetadata], by decide, by decide⟩
    | some .jnull =>
      refine ⟨by norm_num [analyzeContent, defaultMetadata],
        by norm_num [analyzeContent, defaultMetadata], by decide, by decide⟩
    | some (.jbool b) => exact hparse (.jbool b)
    | some (.jnum q) => exact hparse (.jnum q)
    | some (.jstr s) => exact hparse (.jstr s)
    | some (.jarr xs) => exact hparse (.jarr xs)
    | some (.jobj fields) => exact hparse (.jobj fields)
  exact ⟨key.1, key.2.1, key.2.2.1, key.2.2.2,
    fun s hs => ne_empty_of_truthy_str (hs ▸ key.2.2.1),
    fun s hs => ne_empty_of_truthy_str (hs ▸ key.2.2.2)⟩

/-- Witness for the amended claim C10 on the total-failure response. -/
theorem C10_witness :
    0 ≤ (analyzeContent none).importance ∧
    jsTruthy (analyzeContent none).summary = true :=
  ⟨(C10_metadata_invariants none).1, (C10_metadata_invariants none).2.2.1⟩

end MemoryApp

